import Mathlib

/-!
Verification of the vegetable-sales medallion pipeline.

This file is a shallow embedding, in Lean 4, of the data pipeline implemented
in `src/app_csv.py` and `src/app_sql.py`: a name normalizer, a week-to-month
proportional allocator built on Python's `%Y-%W-%w` strptime semantics, a
per-vegetable statistical outlier tagger, and the bronze/silver/gold ingest
orchestration (both the CSV-file variant and the SQLite variant).

Modelling conventions:
* Python floats are modelled as exact rationals (ℚ); the spec's statements are
  "exact up to floating-point tolerance", which is the idealised arithmetic.
* Python strings are Lean `String`s; `str.lower`/`str.strip` are modelled
  character-wise for the ASCII range (they agree with Python there, and every
  string handled by the claims is ASCII).
* `datetime.strptime(f"{year}-{week}-1", "%Y-%W-%w")` is modelled by
  `strptimeYWw1` below, following CPython's `_calc_julian_from_U_or_W`:
  the `%Y` pattern matches exactly four digits and `%W` matches 0..53, so the
  model returns `none` (the Python call raises) outside those ranges.
* The gold month key `strftime("%Y%m")` is modelled as the natural number
  `year * 100 + month`; for the four-digit years reachable here this encoding
  is in bijection with the string form.
-/

namespace VegSpec

/-- Model of Python `str.lower` for a single character (ASCII range; Python's
full Unicode lowering agrees with this on ASCII, which covers every string the
pipeline's synonym table and claims mention).  Codepoints 65-90 are `A`-`Z`;
adding 32 gives the corresponding lowercase letter. -/
def lowerChar (c : Char) : Char :=
  if 65 ≤ c.toNat ∧ c.toNat ≤ 90 then Char.ofNat (c.toNat + 32) else c

/-- Model of Python `str.lower` on whole strings. -/
def pyLower (s : String) : String := ⟨s.data.map lowerChar⟩

/-- The whitespace characters removed by Python `str.strip()` (ASCII range),
by codepoint: space, tab, newline, carriage return, vertical tab, form
feed. -/
def isPySpace (c : Char) : Bool :=
  c.toNat == 32 || c.toNat == 9 || c.toNat == 10 || c.toNat == 13 ||
    c.toNat == 11 || c.toNat == 12

/-- Model of Python `str.strip()`: drop leading and trailing whitespace. -/
def pyStrip (s : String) : String :=
  ⟨List.rdropWhile isPySpace (s.data.dropWhile isPySpace)⟩

/-- The static synonym table of `standardize_vegetable_name`
(`src/app_csv.py` lines 12-32, identical in `src/app_sql.py`). -/
def translations : List (String × String) :=
  [("tomate", "tomato"), ("tomatoes", "tomato"), ("tomaot", "tomato"),
   ("tomatto", "tomato"), ("poire", "pear"), ("peer", "pear"), ("pera", "pear"),
   ("carotte", "carrot"), ("zanahoria", "carrot"),
   ("pomme de terre", "potato"), ("patata", "potato"),
   ("oignon", "onion"), ("cebolla", "onion"),
   ("poivron", "pepper"), ("pimiento", "pepper"),
   ("brusel sprout", "brussels sprout"), ("brussel sprout", "brussels sprout"),
   ("brussell sprout", "brussels sprout"), ("brusselsprout", "brussels sprout")]

/-- Model of `standardize_vegetable_name` (`src/app_csv.py` lines 10-34): lowercase,
strip, then look up in the synonym table, defaulting to the lowered/stripped
name itself. -/
def standardize_vegetable_name (name : String) : String :=
  let n := pyStrip (pyLower name)
  (translations.lookup n).getD n

/-! ## Calendar model

Proleptic Gregorian calendar, as used by Python's `datetime`.  Days are
identified by their rata-die number: day 1 is 0001-01-01, which is a Monday,
so `wd rd = (rd - 1) % 7` gives the weekday with Monday = 0 (the convention
CPython's strptime uses internally). -/

def isLeap (y : Nat) : Bool := (y % 4 == 0 && y % 100 != 0) || (y % 400 == 0)

def daysInYear (y : Nat) : Nat := if isLeap y then 366 else 365

def daysInMonth (y m : Nat) : Nat :=
  if m == 2 then (if isLeap y then 29 else 28)
  else if m == 4 || m == 6 || m == 9 || m == 11 then 30 else 31

/-- Rata-die number of January 1 of year `y` (for `y ≥ 1`). -/
def jan1RD (y : Nat) : Nat :=
  365 * (y - 1) + ((y - 1) / 4 - (y - 1) / 100) + (y - 1) / 400 + 1

/-- Weekday of a rata-die day, Monday = 0 … Sunday = 6. -/
def wd (rd : Nat) : Nat := (rd - 1) % 7

/-- Month (1..12) containing day-of-year `doy` of year `y`, by walking the
month lengths.  `m` is the candidate month being tested; the fuel argument
(11 steps suffice from month 1) keeps the recursion structural so that the
function reduces inside the kernel. -/
def monthOfDoyGo (y : Nat) : Nat → Nat → Nat → Nat
  | _, m, 0 => m
  | doy, m, fuel + 1 =>
    if 12 ≤ m then 12
    else if doy ≤ daysInMonth y m then m
    else monthOfDoyGo y (doy - daysInMonth y m) (m + 1) fuel

def monthOfDoy (y doy : Nat) : Nat := monthOfDoyGo y doy 1 12

/-- Resolve a day-of-year that may run past the end of year `y` (as
`start_date + timedelta(days=i)` may) into the actual `(year, month)` pair.
Each rollover step consumes at least 365 days, so fuel `doy` never runs
out. -/
def ymOfDayGo : Nat → Nat → Nat → Nat × Nat
  | y, doy, 0 => (y, monthOfDoy y doy)
  | y, doy, fuel + 1 =>
    if doy ≤ daysInYear y then (y, monthOfDoy y doy)
    else ymOfDayGo (y + 1) (doy - daysInYear y) fuel

def ymOfDay (y doy : Nat) : Nat × Nat := ymOfDayGo y doy doy

/-- Model of `datetime.strptime(f"{year}-{week}-1", "%Y-%W-%w")`, returning
the `(year, day-of-year)` of the parsed date (the day-of-year may exceed the
year length; `ymOfDay` normalises it, matching CPython's `fromordinal`
rollover).  Follows CPython `_strptime._calc_julian_from_U_or_W` with
`week_starts_Mon = True` and weekday Monday (from `%w = 1`): the Monday of
week `week`, where week 1 begins at the year's first Monday and week 0 is the
partial week before it (possibly reaching into the previous year).  Returns
`none` exactly when the Python call raises: `%Y` matches exactly four digits
and `%W` matches at most 53. -/
def strptimeYWw1 (year week : Nat) : Option (Nat × Nat) :=
  if year < 1000 || 9999 < year || 53 < week then none
  else if week == 0 then
    if wd (jan1RD year) == 0 then some (year, 1)
    else some (year - 1, daysInYear (year - 1) + 1 - wd (jan1RD year))
  else some (year, 1 + (7 - wd (jan1RD year)) % 7 + 7 * (week - 1))

/-! ## Week-to-month allocator -/

/-- A row of the monthly aggregate (gold) table before outlier tagging. -/
structure MRec where
  year_month : Nat
  vegetable : String
  sales : ℚ
deriving DecidableEq, Repr

/-- A bronze/silver row: `{year_week, vegetable, sales}`. -/
structure SRec where
  year_week : Nat
  vegetable : String
  sales : ℚ
deriving DecidableEq, Repr

/-- The `strftime("%Y%m")` month key of a `(year, month)` pair, encoded as a
natural number. -/
def ymKey (p : Nat × Nat) : Nat := p.1 * 100 + p.2

/-- One step of the Python dict tally `month_days[k] = month_days.get(k, 0) + 1`
(insertion-ordered, as Python dicts are). -/
def bump (l : List (Nat × Nat)) (k : Nat) : List (Nat × Nat) :=
  match l with
  | [] => [(k, 1)]
  | (k', c) :: t => if k' == k then (k', c + 1) :: t else (k', c) :: bump t k

/-- The per-record body of `compute_monthly_sales` (`src/app_csv.py` lines
48-75): anchor the week via strptime, tally the months of its 7 consecutive
days, and emit one contribution `sales * (days / 7)` per month.  `none` when
the Python code would raise (week number out of `%W` range, year not four
digits, or a day past 9999-12-31 overflowing `datetime`). -/
def allocate (yw : Nat) (veg : String) (sales : ℚ) : Option (List MRec) :=
  match strptimeYWw1 (yw / 100) (yw % 100) with
  | none => none
  | some (y0, d0) =>
    if 9999 < (ymOfDay y0 (d0 + 6)).1 then none
    else
      some (((((List.range 7).map (fun i => ymKey (ymOfDay y0 (d0 + i)))).foldl bump []).map
        (fun md => ⟨md.1, veg, sales * ((md.2 : ℚ) / 7)⟩)))

/-- The row loop of `compute_monthly_sales`: contributions of every silver
row, concatenated in row order; `none` if any row makes the Python code
raise. -/
def allocAll : List SRec → Option (List MRec)
  | [] => some []
  | r :: rs =>
    match allocate r.year_week r.vegetable r.sales, allocAll rs with
    | some c, some cs => some (c ++ cs)
    | _, _ => none

def keyM (r : MRec) : Nat × String := (r.year_month, r.vegetable)

/-- pandas sorts group keys ascending; tuple order on `(year_month, vegetable)`
with code-point string comparison. -/
def keyLe (a b : Nat × String) : Bool :=
  a.1 < b.1 || (a.1 == b.1 && !(b.2 < a.2))

/-- Keep-first deduplication by a key function: after each kept element,
every later element with the same key is filtered away.  Structured with a
length fuel so the recursion is structural (the filtered tail is never
longer than the original tail, so fuel `l.length` suffices). -/
def dedupByGo {α κ : Type} (f : α → κ) [DecidableEq κ] : Nat → List α → List α
  | _, [] => []
  | 0, a :: l => a :: l
  | fuel + 1, a :: l => a :: dedupByGo f fuel (l.filter (fun x => f x ≠ f a))

def dedupBy {α κ : Type} (f : α → κ) [DecidableEq κ] (l : List α) : List α :=
  dedupByGo f l.length l

/-- Insertion of one key into a sorted key list (ascending by `keyLe`). -/
def insertSorted (a : Nat × String) : List (Nat × String) → List (Nat × String)
  | [] => [a]
  | b :: t => if keyLe a b then a :: b :: t else b :: insertSorted a t

/-- Ascending insertion sort of group keys, modelling pandas' sorted group
order. -/
def sortKeys (l : List (Nat × String)) : List (Nat × String) :=
  l.foldr insertSorted []

/-- Model of `groupby(["year_month", "vegetable"])["sales"].sum().reset_index()`:
one row per distinct key, in ascending key order, whose sales is the sum
over the rows with that key. -/
def groupby (l : List MRec) : List MRec :=
  (sortKeys (dedupBy id (l.map keyM))).map
    (fun k => ⟨k.1, k.2, ((l.filter (fun r => keyM r = k)).map (fun r => r.sales)).sum⟩)

/-- Model of `compute_monthly_sales` (`src/app_csv.py` lines 37-85, identical in
`src/app_sql.py`): empty input short-circuits to an empty frame, otherwise
allocate every row and group-sum by `(year_month, vegetable)`. -/
def computeMonthlySales (l : List SRec) : Option (List MRec) :=
  if l.isEmpty then some []
  else (allocAll l).map groupby

/-! ## Outlier tagger -/

/-- A gold row: monthly aggregate plus outlier flag. -/
structure Agg where
  year_month : Nat
  vegetable : String
  sales : ℚ
  is_outlier : Bool
deriving DecidableEq, Repr

/-- The sales of the rows of `l` whose vegetable is `veg` (the partition the
tagger masks out). -/
def groupSales (l : List MRec) (veg : String) : List ℚ :=
  (l.filter (fun r => r.vegetable = veg)).map (fun r => r.sales)

/-- pandas `.mean()`: sum divided by count. -/
def sampleMean (xs : List ℚ) : ℚ := xs.sum / xs.length

/-- pandas `.var()` with the default `ddof = 1`: sample variance.  pandas
`.std()` is its square root; `flagFor` uses the square-free characterisation
of the comparison against it (see `flagFor_iff_sqrt`). -/
def sampleVar (xs : List ℚ) : ℚ :=
  ((xs.map (fun x => (x - sampleMean xs) ^ 2)).sum) / ((xs.length : ℚ) - 1)

/-- The tagger's per-row test (`src/app_csv.py` lines 93-99).  pandas `.std()`
is `NaN` exactly on groups of fewer than two rows, in which case the code
skips the comparison and leaves the flag `False`.  Otherwise the flag is
`sales > mean + 5 * std`; over the rationals this is equivalent to
`sales > mean ∧ (sales - mean)² > 25 * var`, the form used here so that the
flag stays computable (the equivalence with the square-root form is proved in
`flagFor_iff_sqrt`). -/
def flagFor (xs : List ℚ) (x : ℚ) : Bool :=
  if 2 ≤ xs.length then
    decide (sampleMean xs < x) && decide (25 * sampleVar xs < (x - sampleMean xs) ^ 2)
  else false

/-- Model of `tag_outliers` (`src/app_csv.py` lines 88-101): every row gets
`is_outlier` from the comparison against its own vegetable's group statistics
(the code's iteration over `unique()` vegetables assigns each row exactly
once, from the mask of its vegetable). -/
def tagOutliers (l : List MRec) : List Agg :=
  l.map (fun r =>
    ⟨r.year_month, r.vegetable, r.sales, flagFor (groupSales l r.vegetable) r.sales⟩)

/-! ## Request-body model and the ingest orchestration

`post_sales` receives parsed JSON.  `JVal` models the JSON values Flask's
`request.json` can produce.  Python dicts are modelled as association lists
with first-occurrence lookup (a parsed JSON object has unique keys). -/

inductive JVal where
  | jstr : String → JVal
  | jnum : ℚ → JVal
  | jbool : Bool → JVal
  | jnull : JVal
  | jarr : List JVal → JVal
  | jobj : List (String × JVal) → JVal

/-- Membership test `col in record` for a dict. -/
def objHas (fields : List (String × JVal)) (k : String) : Bool :=
  (fields.lookup k).isSome

/-- The validation loop of `post_sales` (`src/app_csv.py` lines 149-155,
`src/app_sql.py` lines 180-186): the record must be a dict containing the
three required columns.  Field types are NOT checked. -/
def validRecord (v : JVal) : Bool :=
  match v with
  | JVal.jobj fields => objHas fields "date" && objHas fields "vegetable" && objHas fields "kilo_sold"
  | _ => false

/-- Model of Python `int(s)` restricted to plain nonnegative digit strings.
(Python also accepts signs, surrounding whitespace and inner underscores;
no claim depends on those forms, and every concrete input handled below is a
plain digit string, where the two agree.  On non-numeric input `int` raises,
modelled by `none`.) -/
def pyInt (s : String) : Option Nat :=
  if s.data ≠ [] ∧ s.data.all Char.isDigit then
    some (s.data.foldl (fun a c => 10 * a + (c.toNat - 48)) 0)
  else none

/-- Model of Python `str.split(sep)` for a one-character separator, on the
character list: consecutive separators yield empty parts, and the empty
string yields one empty part, exactly as in Python. -/
def splitOn (sep : Char) : List Char → List (List Char)
  | [] => [[]]
  | c :: t =>
    if c = sep then [] :: splitOn sep t
    else
      match splitOn sep t with
      | [] => [[c]]
      | p :: ps => (c :: p) :: ps

/-- Model of `record["date"].split("-")` then `year * 100 + week` (`src/app_csv.py`
lines 161-164).  Fails (Python raises) when the date is too short to index
`date_parts[1]` or a part is not numeric; parts beyond the second are
ignored, as in the source. -/
def parseDateLabel (s : String) : Option Nat :=
  match (splitOn '-' s.data).map String.mk with
  | y :: w :: _ =>
    match pyInt y, pyInt w with
    | some year, some week => some (year * 100 + week)
    | _, _ => none
  | _ => none

/-- The per-record transformation of `post_sales` (`src/app_csv.py` lines
158-172).  The source reads only `record["date"]` here and copies
`vegetable` / `kilo_sold` through untyped; a non-string vegetable or a
non-numeric kilo_sold makes Python raise further down the pipeline
(in `standardize_vegetable_name` resp. inside `compute_monthly_sales`).
The model surfaces those type failures here, at the transform; every
trajectory on which no such type error occurs, and every trajectory that
fails validation, is unaffected, and the theorems below quantify only over
those. -/
def transformRecord (v : JVal) : Option SRec :=
  match v with
  | JVal.jobj fields =>
    match fields.lookup "date", fields.lookup "vegetable", fields.lookup "kilo_sold" with
    | some (JVal.jstr d), some (JVal.jstr veg), some (JVal.jnum q) =>
      match parseDateLabel d with
      | some yw => some ⟨yw, veg, q⟩
      | none => none
    | _, _, _ => none
  | _ => none

def transformAll : List JVal → Option (List SRec)
  | [] => some []
  | v :: vs =>
    match transformRecord v, transformAll vs with
    | some r, some rs => some (r :: rs)
    | _, _ => none

/-- Key of a bronze/silver row: the table's uniqueness constraint. -/
def keyS (r : SRec) : Nat × String := (r.year_week, r.vegetable)

/-- Model of `drop_duplicates(subset=["year_week", "vegetable"])` with the pandas
default `keep="first"`. -/
def dropDuplicates (l : List SRec) : List SRec := dedupBy keyS l

/-- The CSV store's upsert (`src/app_csv.py` lines 174-183): when the table
file is missing or zero-size (`none`) the new rows are written as-is (no
intra-batch dedup!); otherwise concat then `drop_duplicates`, so existing
keys win. -/
def upsertCsv (t : Option (List SRec)) (new : List SRec) : List SRec :=
  match t with
  | none => new
  | some old => dropDuplicates (old ++ new)

/-- Model of `INSERT OR IGNORE` of one row (`src/app_sql.py` lines 208-226): a row whose
`(year_week, vegetable)` key is already present is dropped. -/
def insertOrIgnore (t : List SRec) (r : SRec) : List SRec :=
  if keyS r ∈ t.map keyS then t else t ++ [r]

def insertOrIgnoreAll (t : List SRec) (rs : List SRec) : List SRec :=
  rs.foldl insertOrIgnore t

def keyA (a : Agg) : Nat × String := (a.year_month, a.vegetable)

/-- Model of `INSERT OR REPLACE` into gold (`src/app_sql.py` lines 240-252): SQLite
deletes any row violating `UNIQUE(year_month, vegetable)` and appends the
new row. -/
def insertOrReplace (g : List Agg) (a : Agg) : List Agg :=
  g.filter (fun x => keyA x ≠ keyA a) ++ [a]

def insertOrReplaceAll (g : List Agg) (new : List Agg) : List Agg :=
  new.foldl insertOrReplace g

/-- HTTP outcome of a `post_sales` call: 200, 400, or an unhandled Python
exception (Flask's 500). -/
inductive Status where
  | success : Status
  | clientError : Status
  | serverError : Status
deriving DecidableEq, Repr

/-- State of the CSV backend.  `none` models a missing or zero-size table
file (the code's `os.path.isfile(...) and os.path.getsize(...) > 0` test),
`some rows` an existing file with a header. -/
structure CsvState where
  bronze : Option (List SRec)
  silver : Option (List SRec)
  gold : Option (List Agg)
deriving DecidableEq, Repr

/-- Fresh CSV backend (no files yet). -/
def csvInit : CsvState := ⟨none, none, none⟩

/-- State after `/init_database` of the CSV app: three header-only files. -/
def csvReset : CsvState := ⟨some [], some [], some []⟩

/-- Model of `post_sales` of the CSV app (`src/app_csv.py` lines 141-215).  Crash
points follow the source order: body not a list → 400; a record failing
validation → 400 with nothing written; a transform-time failure → 500 with
nothing written; an allocation failure inside `compute_monthly_sales` → 500
with bronze and silver already rewritten but gold untouched; otherwise 200
with gold wholly replaced by the recomputation from the full new silver
table. -/
def postSalesCsv (st : CsvState) (body : JVal) : Status × CsvState :=
  match body with
  | JVal.jarr items =>
    if items.all validRecord then
      match transformAll items with
      | some rows =>
        let bronzeNew := upsertCsv st.bronze rows
        let silverRows := rows.map (fun r => ⟨r.year_week, standardize_vegetable_name r.vegetable, r.sales⟩)
        let silverNew := upsertCsv st.silver silverRows
        match computeMonthlySales silverNew with
        | some monthly =>
          (Status.success, ⟨some bronzeNew, some silverNew, some (tagOutliers monthly)⟩)
        | none => (Status.serverError, ⟨some bronzeNew, some silverNew, st.gold⟩)
      | none => (Status.serverError, st)
    else (Status.clientError, st)
  | _ => (Status.clientError, st)

/-- State of the SQLite backend: the three tables (which always exist after
`create_tables`). -/
structure SqlState where
  bronze : List SRec
  silver : List SRec
  gold : List Agg
deriving DecidableEq, Repr

def sqlInit : SqlState := ⟨[], [], []⟩

/-- Model of `post_sales` of the SQL app (`src/app_sql.py` lines 172-256).  The whole
write runs inside `with sqlite3.connect(...)`, whose context manager commits
on success and rolls back on an exception, so every failing trajectory
leaves the state unchanged.  The gold step is skipped when silver is empty;
otherwise the recomputed aggregates are merged in with INSERT OR REPLACE. -/
def postSalesSql (st : SqlState) (body : JVal) : Status × SqlState :=
  match body with
  | JVal.jarr items =>
    if items.all validRecord then
      match transformAll items with
      | some rows =>
        let bronzeNew := insertOrIgnoreAll st.bronze rows
        let silverRows := rows.map (fun r => ⟨r.year_week, standardize_vegetable_name r.vegetable, r.sales⟩)
        let silverNew := insertOrIgnoreAll st.silver silverRows
        if silverNew.isEmpty then
          (Status.success, ⟨bronzeNew, silverNew, st.gold⟩)
        else
          match computeMonthlySales silverNew with
          | some monthly =>
            (Status.success, ⟨bronzeNew, silverNew, insertOrReplaceAll st.gold (tagOutliers monthly)⟩)
          | none => (Status.serverError, st)
      | none => (Status.serverError, st)
    else (Status.clientError, st)
  | _ => (Status.clientError, st)

/-- The states the SQL backend can reach: a fresh database, the result of
`/init_database` (drop and recreate, back to empty), or the state after any
`post_sales` call.  The read endpoints do not write. -/
inductive SqlReach : SqlState → Prop where
  | init : SqlReach sqlInit
  | reset (st : SqlState) : SqlReach st → SqlReach sqlInit
  | post (st : SqlState) (body : JVal) : SqlReach st → SqlReach (postSalesSql st body).2

/-! ## Read endpoints -/

/-- Zero-pad to two digits: `f"{n:02d}"` for `n < 100`. -/
def pad2 (n : Nat) : String := if n < 10 then "0" ++ toString n else toString n

/-- The date label `get_raw_sales` rebuilds (`src/app_csv.py` line 230):
`f"{year}-{week:02d}"` from the stored integer key. -/
def fmtYearWeek (yw : Nat) : String := toString (yw / 100) ++ "-" ++ pad2 (yw % 100)

/-- The month label `get_monthly_sales` rebuilds (`src/app_csv.py` lines
259-262): for the four-digit years reachable here, slicing the six-digit
`"YYYYMM"` string and reformatting equals `f"{ym / 100}-{ym % 100:02d}"` on
the numeric key. -/
def fmtYearMonth (ym : Nat) : String := toString (ym / 100) ++ "-" ++ pad2 (ym % 100)

/-- A row of the `/get_raw_sales/` response. -/
structure RawView where
  date : String
  vegetable : String
  kilo_sold : ℚ
deriving DecidableEq, Repr

/-- A row of the `/get_monthly_sales/` response. -/
structure MonthlyView where
  date : String
  vegetable : String
  kilo_sold : ℚ
  is_outlier : Bool
deriving DecidableEq, Repr

/-- Model of `get_raw_sales` of the CSV app (`src/app_csv.py` lines 217-240): missing
or empty file → `[]`, else every bronze row with its date label rebuilt from
the integer key. -/
def getRawSalesCsv (bronze : Option (List SRec)) : List RawView :=
  match bronze with
  | none => []
  | some rows => rows.map (fun r => ⟨fmtYearWeek r.year_week, r.vegetable, r.sales⟩)

/-- Model of `get_monthly_sales` of the CSV app (`src/app_csv.py` lines 242-273):
the `remove_outliers` query parameter (default `"false"`) is lowercased and
compared with `"true"`; when it matches, outlier rows are dropped before the
row loop.  The row loop itself, however, always fails on the CSV backend:
gold is written with `year_month` as a six-digit string, `pd.read_csv`
reads that column back as int64, and `year_month[:4]` (line 260) slices an
integer — a TypeError, surfacing as an unhandled exception (HTTP 500) with
no rows returned.  Only when no row survives the filter (missing/empty
file, header-only gold, or every row an outlier under
`remove_outliers=true`) does the loop not run and the response is a
successful empty list. -/
def getMonthlySalesCsv (gold : Option (List Agg)) (param : Option String) :
    Status × List MonthlyView :=
  let removeOutliers := pyLower (param.getD "false") == "true"
  match gold with
  | none => (Status.success, [])
  | some rows =>
    let rows := if removeOutliers then rows.filter (fun r => !r.is_outlier) else rows
    match rows with
    | [] => (Status.success, [])
    | _ :: _ => (Status.serverError, [])

/-- Model of `get_monthly_sales` of the SQL app (`src/app_sql.py` lines 283-316): the
same parameter handling; the SQL `WHERE is_outlier = 0` filter is the same
row filter. -/
def getMonthlySalesSql (gold : List Agg) (param : Option String) : List MonthlyView :=
  let removeOutliers := pyLower (param.getD "false") == "true"
  let rows := if removeOutliers then gold.filter (fun r => !r.is_outlier) else gold
  rows.map (fun r => ⟨fmtYearMonth r.year_month, r.vegetable, r.sales, r.is_outlier⟩)

/-- Model of `get_raw_sales` of the SQL app (`src/app_sql.py` lines 258-281). -/
def getRawSalesSql (bronze : List SRec) : List RawView :=
  bronze.map (fun r => ⟨fmtYearWeek r.year_week, r.vegetable, r.sales⟩)

/-! ## Lemmas about the name normalizer (claims C7, C8) -/

theorem toNat_ofNat_valid {n : Nat} (h : n.isValidChar) : (Char.ofNat n).toNat = n := by
  rw [Char.ofNat, dif_pos h]
  rfl

theorem lowerChar_toNat (c : Char) :
    (lowerChar c).toNat =
      if 65 ≤ c.toNat ∧ c.toNat ≤ 90 then c.toNat + 32 else c.toNat := by
  unfold lowerChar
  by_cases h : 65 ≤ c.toNat ∧ c.toNat ≤ 90
  · rw [if_pos h, if_pos h]
    have hval : Char.toNat c < 0xd800 := by omega
    exact toNat_ofNat_valid (Or.inl (by omega))
  · rw [if_neg h, if_neg h]

theorem lowerChar_eq_of_not {c : Char} (h : ¬(65 ≤ c.toNat ∧ c.toNat ≤ 90)) :
    lowerChar c = c := by
  unfold lowerChar
  rw [if_neg h]

theorem lowerChar_idem (c : Char) : lowerChar (lowerChar c) = lowerChar c := by
  apply lowerChar_eq_of_not
  rw [lowerChar_toNat]
  by_cases h : 65 ≤ c.toNat ∧ c.toNat ≤ 90
  · rw [if_pos h]
    omega
  · rw [if_neg h]
    exact h

theorem isPySpace_lowerChar (c : Char) : isPySpace (lowerChar c) = isPySpace c := by
  unfold isPySpace
  rw [lowerChar_toNat]
  by_cases h : 65 ≤ c.toNat ∧ c.toNat ≤ 90
  · rw [if_pos h]
    have h1 : (c.toNat + 32 == 32) = false := by simp; omega
    simp only [h1]
    have h2 : (c.toNat == 32) = false := by simp; omega
    simp only [h2]
    simp
    omega
  · rw [if_neg h]

theorem comp_lowerChar_isPySpace : isPySpace ∘ lowerChar = isPySpace :=
  funext (fun c => isPySpace_lowerChar c)

theorem map_lowerChar_idem (l : List Char) :
    (l.map lowerChar).map lowerChar = l.map lowerChar := by
  rw [List.map_map]
  exact List.map_congr_left (fun a _ => lowerChar_idem a)

theorem pyLower_pyLower (s : String) : pyLower (pyLower s) = pyLower s :=
  congrArg String.mk (map_lowerChar_idem s.data)

theorem dropWhile_eq_self_of_isPre {α : Type} {p : α → Bool} {l q : List α}
    (h : List.dropWhile p l = l) (hq : q <+: l) : List.dropWhile p q = q := by
  cases q with
  | nil => simp
  | cons a t =>
    obtain ⟨r, hr⟩ := hq
    have hl : l = a :: (t ++ r) := by
      rw [← hr]
      simp
    have ha : p a = false := by
      by_contra hpa
      have hpa' : p a = true := by revert hpa; cases p a <;> simp
      rw [hl, List.dropWhile_cons, if_pos hpa'] at h
      have h1 := List.Sublist.length_le (List.dropWhile_sublist (p := p) (l := t ++ r))
      have h2 := congrArg List.length h
      simp at h2
      have h3 : (t ++ r).length = t.length + r.length := List.length_append _ _
      omega
    rw [List.dropWhile_cons, if_neg (by simp [ha])]

theorem pyStrip_idem (s : String) : pyStrip (pyStrip s) = pyStrip s := by
  unfold pyStrip
  apply congrArg String.mk
  have hM : List.dropWhile isPySpace (List.dropWhile isPySpace s.data) =
      List.dropWhile isPySpace s.data := List.dropWhile_idempotent _ _
  have hpre : List.rdropWhile isPySpace (List.dropWhile isPySpace s.data) <+:
      List.dropWhile isPySpace s.data := List.rdropWhile_prefix _ _
  rw [show (⟨List.rdropWhile isPySpace (List.dropWhile isPySpace s.data)⟩ : String).data =
      List.rdropWhile isPySpace (List.dropWhile isPySpace s.data) from rfl]
  rw [dropWhile_eq_self_of_isPre hM hpre]
  exact List.rdropWhile_idempotent _ _

theorem dropWhile_map_lowerChar (l : List Char) :
    List.dropWhile isPySpace (l.map lowerChar) =
      (List.dropWhile isPySpace l).map lowerChar := by
  rw [List.dropWhile_map, comp_lowerChar_isPySpace]

theorem rdropWhile_map_lowerChar (l : List Char) :
    List.rdropWhile isPySpace (l.map lowerChar) =
      (List.rdropWhile isPySpace l).map lowerChar := by
  unfold List.rdropWhile
  rw [← List.map_reverse, List.dropWhile_map, comp_lowerChar_isPySpace, List.map_reverse]

theorem pyLower_pyStrip (s : String) : pyLower (pyStrip s) = pyStrip (pyLower s) := by
  unfold pyLower pyStrip
  apply congrArg String.mk
  rw [show (⟨List.rdropWhile isPySpace (List.dropWhile isPySpace s.data)⟩ : String).data =
      List.rdropWhile isPySpace (List.dropWhile isPySpace s.data) from rfl]
  rw [show (⟨s.data.map lowerChar⟩ : String).data = s.data.map lowerChar from rfl]
  rw [dropWhile_map_lowerChar, rdropWhile_map_lowerChar]

theorem norm_idem (s : String) :
    pyStrip (pyLower (pyStrip (pyLower s))) = pyStrip (pyLower s) := by
  rw [pyLower_pyStrip, pyLower_pyLower, pyStrip_idem]

theorem lookup_mem_values {l : List (String × String)} {k v : String}
    (h : l.lookup k = some v) : v ∈ l.map Prod.snd := by
  induction l with
  | nil => simp [List.lookup] at h
  | cons a t ih =>
    match a with
    | (k', v') =>
      rw [List.lookup_cons] at h
      cases hk : k == k' with
      | true =>
        rw [hk] at h
        simp at h
        simp [h]
      | false =>
        rw [hk] at h
        simp at h
        simp [ih h]

/-- Every value of the synonym table is a fixed point of normalization:
already lowercase and stripped, and itself absent from the table's keys. -/
theorem values_fixed :
    ∀ v ∈ translations.map Prod.snd,
      pyStrip (pyLower v) = v ∧ translations.lookup v = none := by decide

/-- C7 counterexample: the input `"KALE"` matches no entry of the synonym
table (not even after normalization), yet `standardize_vegetable_name` does
not return it unchanged — it returns the lowercased form `"kale"`. -/
theorem c7_counterexample :
    standardize_vegetable_name "KALE" = "kale" ∧ "kale" ≠ "KALE" ∧
      translations.lookup (pyStrip (pyLower "KALE")) = none ∧
      translations.lookup "KALE" = none := by decide

/-- C7 (amended): for every raw string whose lowercased and stripped form
matches no entry of the static synonym table, `standardize_vegetable_name`
returns that lowercased, stripped form (so the unknown vegetable name is
preserved up to lowercasing and trimming); a raw string that is already
lowercase and stripped and matches no entry is returned verbatim. -/
theorem c7_unmatched_preserved :
    (∀ s : String, translations.lookup (pyStrip (pyLower s)) = none →
      standardize_vegetable_name s = pyStrip (pyLower s)) ∧
    (∀ s : String, pyStrip (pyLower s) = s → translations.lookup s = none →
      standardize_vegetable_name s = s) := by
  have he : ∀ s : String, standardize_vegetable_name s =
      (translations.lookup (pyStrip (pyLower s))).getD (pyStrip (pyLower s)) :=
    fun _ => rfl
  constructor
  · intro s h
    rw [he, h]
    rfl
  · intro s hfix h
    rw [he, hfix, h]
    rfl

theorem c7_unmatched_preserved_witness :
    translations.lookup (pyStrip (pyLower "durian")) = none ∧
      standardize_vegetable_name "durian" = pyStrip (pyLower "durian") :=
  ⟨by decide, c7_unmatched_preserved.1 "durian" (by decide)⟩

/-- C8: `standardize_vegetable_name` is idempotent (and total, being a plain
Lean function on all of `String`): normalizing twice equals normalizing
once, for every input string. -/
theorem c8_standardize_idempotent (x : String) :
    standardize_vegetable_name (standardize_vegetable_name x) =
      standardize_vegetable_name x := by
  have he : ∀ s : String, standardize_vegetable_name s =
      (translations.lookup (pyStrip (pyLower s))).getD (pyStrip (pyLower s)) :=
    fun _ => rfl
  rw [he x]
  cases h : translations.lookup (pyStrip (pyLower x)) with
  | none =>
    simp only [Option.getD_none]
    rw [he, norm_idem, h]
    rfl
  | some v =>
    simp only [Option.getD_some]
    have hv := values_fixed v (lookup_mem_values h)
    rw [he v, hv.1, hv.2]
    rfl

/-! ## Lemmas about the allocator (claims C2, C3) -/

theorem bump_snd_sum (l : List (Nat × Nat)) (k : Nat) :
    ((bump l k).map Prod.snd).sum = (l.map Prod.snd).sum + 1 := by
  induction l with
  | nil => simp [bump]
  | cons a t ih =>
    obtain ⟨k', c⟩ := a
    rw [show bump ((k', c) :: t) k =
        if k' == k then (k', c + 1) :: t else (k', c) :: bump t k from rfl]
    by_cases h : (k' == k) = true
    · rw [if_pos h]
      simp
      omega
    · rw [if_neg h]
      simp [ih]
      omega

theorem foldl_bump_sum (days : List Nat) :
    ∀ acc : List (Nat × Nat),
      ((days.foldl bump acc).map Prod.snd).sum = (acc.map Prod.snd).sum + days.length := by
  induction days with
  | nil => intro acc; simp
  | cons d ds ih =>
    intro acc
    rw [List.foldl_cons, ih (bump acc d), bump_snd_sum]
    simp
    omega

theorem contrib_sum (veg : String) (sales : ℚ) (L : List (Nat × Nat)) :
    ((L.map (fun md => (⟨md.1, veg, sales * ((md.2 : ℚ) / 7)⟩ : MRec))).map
        (fun r => r.sales)).sum =
      sales / 7 * (((L.map Prod.snd).sum : Nat) : ℚ) := by
  induction L with
  | nil => simp
  | cons a t ih =>
    simp only [List.map_cons, List.sum_cons, ih, List.sum_cons]
    push_cast
    ring

/-- C2: allocation conservation.  Whenever the allocator succeeds on a
`(year_week, vegetable, sales)` input, the partial sales of the emitted
monthly contributions sum exactly to the original sales, because the
per-month day counts of the tallied 7 days always sum to 7. -/
theorem c2_allocation_conservation (yw : Nat) (veg : String) (sales : ℚ)
    (cs : List MRec) (h : allocate yw veg sales = some cs) :
    (cs.map (fun r => r.sales)).sum = sales := by
  unfold allocate at h
  cases hs : strptimeYWw1 (yw / 100) (yw % 100) with
  | none =>
    rw [hs] at h
    simp at h
  | some p =>
    obtain ⟨y0, d0⟩ := p
    rw [hs] at h
    dsimp only at h
    split at h
    · simp at h
    · simp only [Option.some.injEq] at h
      subst h
      rw [contrib_sum]
      have hlen : ((((List.range 7).map
          (fun i => ymKey (ymOfDay y0 (d0 + i)))).foldl bump []).map Prod.snd).sum = 7 := by
        rw [foldl_bump_sum]
        simp
      rw [hlen]
      norm_num

/-- C2 witness: week 1 of 2020 (January 6-12, entirely inside January): the
allocator succeeds and the emitted contributions sum to the posted 100. -/
theorem c2_allocation_conservation_witness :
    allocate 202001 "tomato" 100 = some ((allocate 202001 "tomato" 100).getD []) ∧
      ((((allocate 202001 "tomato" 100).getD []).map (fun r => r.sales)).sum = 100) :=
  ⟨rfl, c2_allocation_conservation 202001 "tomato" 100 _ rfl⟩

theorem jan1RD_succ (y : Nat) (hy : 1 ≤ y) :
    jan1RD (y + 1) = jan1RD y + daysInYear y := by
  obtain ⟨z, rfl⟩ : ∃ z, y = z + 1 := ⟨y - 1, by omega⟩
  unfold jan1RD daysInYear isLeap
  split
  case isTrue h =>
    simp only [Bool.or_eq_true, Bool.and_eq_true, beq_iff_eq, bne_iff_ne,
      decide_eq_true_eq] at h
    simp only [Nat.add_sub_cancel]
    omega
  case isFalse h =>
    simp only [Bool.or_eq_true, Bool.and_eq_true, beq_iff_eq, bne_iff_ne,
      decide_eq_true_eq, not_or, not_and] at h
    simp only [Nat.add_sub_cancel]
    omega

/-- C3: week anchoring.  Whenever the allocator's strptime step succeeds, the
start of the 7 consecutive days it distributes is the Monday determined by
the weekday-anchored `%W`/`%w` rule: for week ≥ 1 it is the unique Monday in
the half-open 7-day window beginning `7 * (week - 1)` days after the year's
first Monday-or-later anchor — equivalently, the year's first Monday plus
`7 * (week - 1)` days — and for week 0 it is the Monday on or before
January 1.  The final conjunct shows the anchor is NOT a fixed `7 × week`
offset from January 1: in 2021 (whose January 1 is a Friday) week 1 starts
on day-of-year 4, not day-of-year 1. -/
theorem c3_week_anchoring :
    (∀ year week y0 d0, strptimeYWw1 year week = some (y0, d0) →
      (1 ≤ week →
        y0 = year ∧
        wd (jan1RD year + d0 - 1) = 0 ∧
        jan1RD year + 7 * (week - 1) ≤ jan1RD year + d0 - 1 ∧
        jan1RD year + d0 - 1 < jan1RD year + 7 * week) ∧
      (week = 0 →
        wd (jan1RD y0 + d0 - 1) = 0 ∧
        jan1RD y0 + d0 - 1 ≤ jan1RD year ∧
        jan1RD year < jan1RD y0 + d0 - 1 + 7)) ∧
    strptimeYWw1 2021 1 = some (2021, 4) ∧ (4 : Nat) ≠ 1 + 7 * (1 - 1) := by
  refine ⟨?_, by decide, by decide⟩
  intro year week y0 d0 h
  unfold strptimeYWw1 at h
  split at h
  · simp at h
  case isFalse hg =>
    simp only [Bool.or_eq_true, decide_eq_true_eq, not_or] at hg
    have hyear : 1000 ≤ year := by omega
    have hjan : 365 * (year - 1) + 1 ≤ jan1RD year := by unfold jan1RD; omega
    split at h
    case isTrue hw0 =>
      simp only [beq_iff_eq] at hw0
      subst hw0
      split at h
      case isTrue hfw =>
        simp only [beq_iff_eq] at hfw
        simp only [Option.some.injEq, Prod.mk.injEq] at h
        obtain ⟨rfl, rfl⟩ := h
        refine ⟨by omega, fun _ => ?_⟩
        unfold wd at hfw ⊢
        omega
      case isFalse hfw =>
        simp only [beq_iff_eq] at hfw
        simp only [Option.some.injEq, Prod.mk.injEq] at h
        obtain ⟨rfl, rfl⟩ := h
        refine ⟨by omega, fun _ => ?_⟩
        have hsucc : jan1RD (year - 1 + 1) = jan1RD (year - 1) + daysInYear (year - 1) :=
          jan1RD_succ (year - 1) (by omega)
        rw [show year - 1 + 1 = year by omega] at hsucc
        have hdy : 365 ≤ daysInYear (year - 1) := by unfold daysInYear; split <;> omega
        unfold wd at hfw ⊢
        omega
    case isFalse hw0 =>
      simp only [beq_iff_eq] at hw0
      simp only [Option.some.injEq, Prod.mk.injEq] at h
      obtain ⟨rfl, rfl⟩ := h
      refine ⟨fun _ => ⟨rfl, ?_, ?_, ?_⟩, fun h0 => absurd h0 hw0⟩ <;>
        (unfold wd; omega)

/-- C3 witness: year 2021, week 1 — the strptime step succeeds, the anchored
start day (day-of-year 4, January 4) is a Monday lying in the first 7-day
window at the year's first Monday, not January 1. -/
theorem c3_week_anchoring_witness :
    (1 ≤ 1 →
      2021 = 2021 ∧
      wd (jan1RD 2021 + 4 - 1) = 0 ∧
      jan1RD 2021 + 7 * (1 - 1) ≤ jan1RD 2021 + 4 - 1 ∧
      jan1RD 2021 + 4 - 1 < jan1RD 2021 + 7 * 1) ∧
    ((1 : Nat) = 0 →
      wd (jan1RD 2021 + 4 - 1) = 0 ∧
      jan1RD 2021 + 4 - 1 ≤ jan1RD 2021 ∧
      jan1RD 2021 < jan1RD 2021 + 4 - 1 + 7) :=
  c3_week_anchoring.1 2021 1 2021 4 (by decide)

/-! ## Lemmas about keep-first deduplication and the upserts (claim C4) -/

theorem dedupByGo_fuel {α κ : Type} (f : α → κ) [DecidableEq κ] :
    ∀ (fuel fuel' : Nat) (l : List α), l.length ≤ fuel → l.length ≤ fuel' →
      dedupByGo f fuel l = dedupByGo f fuel' l := by
  intro fuel
  induction fuel with
  | zero =>
    intro fuel' l h h'
    cases l with
    | nil => cases fuel' <;> rfl
    | cons a t => simp at h
  | succ fuel ih =>
    intro fuel' l h h'
    cases l with
    | nil => cases fuel' <;> rfl
    | cons a t =>
      cases fuel' with
      | zero => simp at h'
      | succ fuel' =>
        simp only [dedupByGo, List.cons.injEq, true_and]
        apply ih
        · have := List.length_filter_le (fun x => decide (f x ≠ f a)) t
          simp at h
          omega
        · have := List.length_filter_le (fun x => decide (f x ≠ f a)) t
          simp at h'
          omega

theorem dedupBy_nil {α κ : Type} (f : α → κ) [DecidableEq κ] : dedupBy f [] = [] := rfl

theorem dedupBy_cons {α κ : Type} (f : α → κ) [DecidableEq κ] (a : α) (l : List α) :
    dedupBy f (a :: l) = a :: dedupBy f (l.filter (fun x => f x ≠ f a)) := by
  unfold dedupBy
  simp only [List.length_cons, dedupByGo, List.cons.injEq, true_and]
  exact dedupByGo_fuel f _ _ _ (List.length_filter_le _ _) le_rfl

theorem dedupBy_mem_map {α κ : Type} (f : α → κ) [DecidableEq κ] :
    ∀ (n : Nat) (l : List α), l.length ≤ n →
      ∀ k, (k ∈ (dedupBy f l).map f ↔ k ∈ l.map f) := by
  intro n
  induction n with
  | zero =>
    intro l h k
    cases l with
    | nil => simp [dedupBy_nil]
    | cons a t => simp at h
  | succ n ih =>
    intro l h k
    cases l with
    | nil => simp [dedupBy_nil]
    | cons a t =>
      rw [dedupBy_cons]
      simp only [List.map_cons, List.mem_cons]
      rw [ih _ (le_trans (List.length_filter_le _ _) (by simp at h; omega))]
      constructor
      · rintro (h1 | h1)
        · exact Or.inl h1
        · right
          simp only [List.mem_map] at h1 ⊢
          obtain ⟨x, hx, rfl⟩ := h1
          exact ⟨x, (List.mem_filter.mp hx).1, rfl⟩
      · rintro (h1 | h1)
        · exact Or.inl h1
        · by_cases hk : k = f a
          · exact Or.inl hk
          · right
            simp only [List.mem_map] at h1 ⊢
            obtain ⟨x, hx, rfl⟩ := h1
            refine ⟨x, List.mem_filter.mpr ⟨hx, ?_⟩, rfl⟩
            simpa using hk

theorem dedupBy_nodup {α κ : Type} (f : α → κ) [DecidableEq κ] :
    ∀ (n : Nat) (l : List α), l.length ≤ n → ((dedupBy f l).map f).Nodup := by
  intro n
  induction n with
  | zero =>
    intro l h
    cases l with
    | nil => simp [dedupBy_nil]
    | cons a t => simp at h
  | succ n ih =>
    intro l h
    cases l with
    | nil => simp [dedupBy_nil]
    | cons a t =>
      rw [dedupBy_cons]
      simp only [List.map_cons, List.nodup_cons]
      have hlen : (t.filter (fun x => f x ≠ f a)).length ≤ n :=
        le_trans (List.length_filter_le _ _) (by simp at h; omega)
      refine ⟨?_, ih _ hlen⟩
      rw [dedupBy_mem_map f n _ hlen]
      simp only [List.mem_map]
      rintro ⟨x, hx, hfx⟩
      have := (List.mem_filter.mp hx).2
      simp at this
      exact this hfx

theorem dedupBy_eq_self {α κ : Type} (f : α → κ) [DecidableEq κ] :
    ∀ (n : Nat) (l : List α), l.length ≤ n → (l.map f).Nodup → dedupBy f l = l := by
  intro n
  induction n with
  | zero =>
    intro l h hn
    cases l with
    | nil => rfl
    | cons a t => simp at h
  | succ n ih =>
    intro l h hn
    cases l with
    | nil => rfl
    | cons a t =>
      rw [dedupBy_cons]
      simp only [List.map_cons, List.nodup_cons] at hn
      have hfilt : t.filter (fun x => f x ≠ f a) = t := by
        rw [List.filter_eq_self]
        intro x hx
        simp only [ne_eq, decide_eq_true_eq]
        intro hfx
        exact hn.1 (by simp only [List.mem_map]; exact ⟨x, hx, hfx⟩)
      rw [hfilt, ih t (by simp at h; omega) hn.2]

theorem dedupBy_append_mem {α κ : Type} (f : α → κ) [DecidableEq κ] :
    ∀ (n : Nat) (l : List α), l.length ≤ n → ∀ r, f r ∈ l.map f →
      dedupBy f (l ++ [r]) = dedupBy f l := by
  intro n
  induction n with
  | zero =>
    intro l h r hr
    cases l with
    | nil => simp at hr
    | cons a t => simp at h
  | succ n ih =>
    intro l h r hr
    cases l with
    | nil => simp at hr
    | cons a t =>
      rw [List.cons_append, dedupBy_cons, dedupBy_cons]
      by_cases hfa : f r = f a
      · have hsplit : (t ++ [r]).filter (fun x => f x ≠ f a) =
            t.filter (fun x => f x ≠ f a) := by
          rw [List.filter_append]
          simp [hfa]
        rw [hsplit]
      · have hsplit : (t ++ [r]).filter (fun x => f x ≠ f a) =
            t.filter (fun x => f x ≠ f a) ++ [r] := by
          rw [List.filter_append]
          simp [hfa]
        rw [hsplit]
        have hmem : f r ∈ (t.filter (fun x => f x ≠ f a)).map f := by
          simp only [List.map_cons, List.mem_cons] at hr
          rcases hr with h1 | h1
          · exact absurd h1 hfa
          · simp only [List.mem_map] at h1 ⊢
            obtain ⟨x, hx, hfx⟩ := h1
            refine ⟨x, List.mem_filter.mpr ⟨hx, ?_⟩, hfx⟩
            simp only [ne_eq, decide_eq_true_eq]
            rw [hfx]
            exact hfa
        rw [ih _ (le_trans (List.length_filter_le _ _) (by simp at h; omega)) r hmem]

theorem filter_key_length_one {α κ : Type} (f : α → κ) [DecidableEq κ] (k : κ) :
    ∀ l : List α, (l.map f).Nodup → k ∈ l.map f →
      (l.filter (fun x => f x = k)).length = 1 := by
  intro l
  induction l with
  | nil =>
    intro _ hm
    simp at hm
  | cons a t ih =>
    intro hn hm
    simp only [List.map_cons, List.nodup_cons] at hn
    rw [List.filter_cons]
    rcases List.mem_cons.mp hm with h1 | h1
    · rw [if_pos (by simp [h1])]
      have hnil : t.filter (fun x => f x = k) = [] := by
        rw [List.filter_eq_nil_iff]
        intro x hx hfx
        simp only [decide_eq_true_eq] at hfx
        exact hn.1 (by
          rw [← h1, ← hfx]
          exact List.mem_map_of_mem f hx)
      rw [hnil]
      rfl
    · have hne : ¬(f a = k) := by
        intro he
        exact hn.1 (he ▸ h1)
      rw [if_neg (by simpa using hne)]
      exact ih hn.2 h1

/-- C4: ingestion is idempotent with first-write-wins semantics.  For the
CSV store: upserting a record whose `(year_week, vegetable)` key is already
present in a table with unique keys leaves the table exactly unchanged
(even when the incoming sales differ), and upserting the same record twice
always leaves exactly one stored row with that key.  For the SQL store:
`INSERT OR IGNORE` of a record whose key is present leaves the table exactly
unchanged. -/
theorem c4_first_write_wins :
    (∀ (t : List SRec) (r : SRec),
        keyS r ∈ t.map keyS → (t.map keyS).Nodup → upsertCsv (some t) [r] = t) ∧
    (∀ (t : List SRec) (r : SRec),
        ((upsertCsv (some (upsertCsv (some t) [r])) [r]).filter
          (fun x => keyS x = keyS r)).length = 1) ∧
    (∀ (t : List SRec) (r : SRec),
        keyS r ∈ t.map keyS → insertOrIgnoreAll t [r] = t) := by
  refine ⟨?_, ?_, ?_⟩
  · intro t r hmem hnodup
    show dropDuplicates (t ++ [r]) = t
    unfold dropDuplicates
    rw [dedupBy_append_mem keyS t.length t le_rfl r hmem]
    exact dedupBy_eq_self keyS t.length t le_rfl hnodup
  · intro t r
    show ((dropDuplicates (dropDuplicates (t ++ [r]) ++ [r])).filter
      (fun x => keyS x = keyS r)).length = 1
    unfold dropDuplicates
    have hmem1 : keyS r ∈ (t ++ [r]).map keyS := by simp
    have hmem2 : keyS r ∈ (dedupBy keyS (t ++ [r])).map keyS := by
      rw [dedupBy_mem_map keyS (t ++ [r]).length _ le_rfl]
      exact hmem1
    have hnodup1 : ((dedupBy keyS (t ++ [r])).map keyS).Nodup :=
      dedupBy_nodup keyS (t ++ [r]).length _ le_rfl
    rw [dedupBy_append_mem keyS (dedupBy keyS (t ++ [r])).length _ le_rfl r hmem2]
    rw [dedupBy_eq_self keyS (dedupBy keyS (t ++ [r])).length _ le_rfl hnodup1]
    exact filter_key_length_one keyS (keyS r) _ hnodup1 hmem2
  · intro t r hmem
    show insertOrIgnore t r = t
    unfold insertOrIgnore
    rw [if_pos hmem]

/-- C4 witness: a table holding `(202001, tomato, 100)`; upserting
`(202001, tomato, 999)` (same key, different sales) leaves the stored row
untouched in both stores, and upserting it twice leaves exactly one row with
that key. -/
theorem c4_first_write_wins_witness :
    (upsertCsv (some [⟨202001, "tomato", 100⟩]) [⟨202001, "tomato", 999⟩] =
      [⟨202001, "tomato", 100⟩]) ∧
    (((upsertCsv (some (upsertCsv (some [⟨202001, "tomato", (100 : ℚ)⟩])
        [⟨202001, "tomato", 999⟩])) [⟨202001, "tomato", 999⟩]).filter
          (fun x => keyS x = keyS ⟨202001, "tomato", 999⟩)).length = 1) ∧
    (insertOrIgnoreAll [⟨202001, "tomato", 100⟩] [⟨202001, "tomato", 999⟩] =
      [⟨202001, "tomato", 100⟩]) :=
  ⟨c4_first_write_wins.1 _ _ (by decide) (by decide),
   c4_first_write_wins.2.1 [⟨202001, "tomato", 100⟩] ⟨202001, "tomato", 999⟩,
   c4_first_write_wins.2.2 _ _ (by decide)⟩

/-! ## Validation of ingest batches (claim C5) -/

/-- C5 counterexample: a batch whose single record has all three required
fields but a wrongly-typed `date` (a number instead of a string) passes the
presence-only validation of `post_sales`; the failure surfaces as an
unhandled exception (HTTP 500, `serverError`), not as the claimed
ValidationError (HTTP 400, `clientError`) — in both the CSV and the SQL
apps.  (No rows are written in this case in either app.) -/
theorem c5_counterexample :
    (postSalesCsv csvReset (JVal.jarr [JVal.jobj
        [("date", JVal.jnum 5), ("vegetable", JVal.jstr "tomato"),
         ("kilo_sold", JVal.jnum 1)]])) = (Status.serverError, csvReset) ∧
    Status.serverError ≠ Status.clientError ∧
    (postSalesSql sqlInit (JVal.jarr [JVal.jobj
        [("date", JVal.jnum 5), ("vegetable", JVal.jstr "tomato"),
         ("kilo_sold", JVal.jnum 1)]])) = (Status.serverError, sqlInit) := by
  refine ⟨rfl, by decide, rfl⟩

/-- C5 (amended): if the posted body is not a list, or any record in the
batch is not a dict or is missing one of the three required fields `date`,
`vegetable`, `kilo_sold`, the whole batch is rejected with a
ValidationError (HTTP 400) and the state — bronze, silver and gold — is
completely unchanged, in both the CSV and the SQL apps.  (Wrongly-typed
field values are NOT caught by validation: they raise unhandled exceptions,
see `c5_counterexample`.) -/
theorem c5_validation_rejects_batch :
    (∀ (st : CsvState) (items : List JVal), ¬ items.all validRecord = true →
        postSalesCsv st (JVal.jarr items) = (Status.clientError, st)) ∧
    (∀ (st : CsvState) (body : JVal), (∀ items, body ≠ JVal.jarr items) →
        postSalesCsv st body = (Status.clientError, st)) ∧
    (∀ (st : SqlState) (items : List JVal), ¬ items.all validRecord = true →
        postSalesSql st (JVal.jarr items) = (Status.clientError, st)) ∧
    (∀ (st : SqlState) (body : JVal), (∀ items, body ≠ JVal.jarr items) →
        postSalesSql st body = (Status.clientError, st)) := by
  refine ⟨?_, ?_, ?_, ?_⟩
  · intro st items h
    show (if items.all validRecord then _ else (Status.clientError, st)) = _
    rw [if_neg h]
  · intro st body h
    cases body with
    | jarr items => exact absurd rfl (h items)
    | jstr s => rfl
    | jnum q => rfl
    | jbool b => rfl
    | jnull => rfl
    | jobj fields => rfl
  · intro st items h
    show (if items.all validRecord then _ else (Status.clientError, st)) = _
    rw [if_neg h]
  · intro st body h
    cases body with
    | jarr items => exact absurd rfl (h items)
    | jstr s => rfl
    | jnum q => rfl
    | jbool b => rfl
    | jnull => rfl
    | jobj fields => rfl

/-- C5 witness: a batch with one record missing `date` and `kilo_sold` is
rejected with 400 and the freshly-initialized CSV state is unchanged. -/
theorem c5_validation_rejects_batch_witness :
    postSalesCsv csvReset (JVal.jarr [JVal.jobj [("vegetable", JVal.jstr "tomato")]]) =
      (Status.clientError, csvReset) :=
  c5_validation_rejects_batch.1 csvReset _ (by decide)

/-! ## Read endpoints (claims C9, C10) -/

/-- C9 counterexample: with a non-empty gold table, the CSV app's
GET of `/get_monthly_sales/` does not return the rows at all: the gold CSV
round-trip turns `year_month` into an integer column, slicing it raises
TypeError, and the request fails as an unhandled exception (HTTP 500)
returning no rows — here with the parameter absent, where the claim says
all rows are returned with their `is_outlier` flag set. -/
theorem c9_counterexample :
    getMonthlySalesCsv (some [⟨202001, "tomato", 100, false⟩]) none =
      (Status.serverError, []) ∧
    Status.serverError ≠ Status.success := by
  exact ⟨rfl, by decide⟩

/-- C9 (amended): the SQL app behaves as the claim states: outlier rows are
excluded from the response exactly when the `remove_outliers` parameter,
compared case-insensitively (the code lowercases it), equals `"true"`;
absent (defaulting to `"false"`) or other values return every row with its
stored `is_outlier` flag.  The CSV app applies the same parameter-driven
filter but then fails on every surviving row (reading gold back turns
`year_month` into an integer, which the label rebuild tries to slice), so
it returns an unhandled-exception 500 with no rows whenever any row
survives the filter, and a successful empty response otherwise. -/
theorem c9_remove_outliers_filter :
    (∀ (gold : List Agg) (param : Option String),
      pyLower (param.getD "false") = "true" →
        getMonthlySalesSql gold param =
          (gold.filter (fun r => !r.is_outlier)).map
            (fun r => ⟨fmtYearMonth r.year_month, r.vegetable, r.sales, r.is_outlier⟩)) ∧
    (∀ (gold : List Agg) (param : Option String),
      pyLower (param.getD "false") ≠ "true" →
        getMonthlySalesSql gold param =
          gold.map
            (fun r => ⟨fmtYearMonth r.year_month, r.vegetable, r.sales, r.is_outlier⟩)) ∧
    (∀ (gold : List Agg) (param : Option String),
      pyLower (param.getD "false") = "true" →
        gold.filter (fun r => !r.is_outlier) = [] →
          getMonthlySalesCsv (some gold) param = (Status.success, [])) ∧
    (∀ (gold : List Agg) (param : Option String),
      pyLower (param.getD "false") = "true" →
        gold.filter (fun r => !r.is_outlier) ≠ [] →
          getMonthlySalesCsv (some gold) param = (Status.serverError, [])) ∧
    (∀ (gold : List Agg) (param : Option String),
      pyLower (param.getD "false") ≠ "true" → gold ≠ [] →
        getMonthlySalesCsv (some gold) param = (Status.serverError, [])) ∧
    (∀ param : Option String, getMonthlySalesCsv (some []) param = (Status.success, [])) ∧
    pyLower "TRUE" = "true" ∧ pyLower "false" ≠ "true" ∧
    (none : Option String).getD "false" = "false" := by
  refine ⟨?_, ?_, ?_, ?_, ?_, ?_, by decide, by decide, rfl⟩
  · intro gold param h
    unfold getMonthlySalesSql
    rw [show (pyLower (param.getD "false") == "true") = true by
      rw [beq_iff_eq]; exact h]
    rfl
  · intro gold param h
    unfold getMonthlySalesSql
    rw [show (pyLower (param.getD "false") == "true") = false by
      rw [beq_eq_false_iff_ne]; exact h]
    rfl
  · intro gold param h hnil
    unfold getMonthlySalesCsv
    rw [show (pyLower (param.getD "false") == "true") = true by
      rw [beq_iff_eq]; exact h]
    dsimp only
    rw [if_pos rfl, hnil]
  · intro gold param h hne
    unfold getMonthlySalesCsv
    rw [show (pyLower (param.getD "false") == "true") = true by
      rw [beq_iff_eq]; exact h]
    dsimp only
    rw [if_pos rfl]
    cases hl : gold.filter (fun r => !r.is_outlier) with
    | nil => exact absurd hl hne
    | cons a t => rfl
  · intro gold param h hne
    unfold getMonthlySalesCsv
    rw [show (pyLower (param.getD "false") == "true") = false by
      rw [beq_eq_false_iff_ne]; exact h]
    dsimp only
    cases gold with
    | nil => exact absurd rfl hne
    | cons a t => rfl
  · intro param
    unfold getMonthlySalesCsv
    cases hb : (pyLower (param.getD "false") == "true") <;> rfl

/-- C9 witness: with `remove_outliers=TRUE` (uppercase) the SQL app excludes
the single outlier row from its response, and the CSV app — whose
post-filter row set is then empty — returns a successful empty response. -/
theorem c9_remove_outliers_filter_witness :
    (getMonthlySalesSql [⟨202001, "tomato", 100, true⟩] (some "TRUE") =
      (([⟨202001, "tomato", (100 : ℚ), true⟩] : List Agg).filter
        (fun r => !r.is_outlier)).map
          (fun r => ⟨fmtYearMonth r.year_month, r.vegetable, r.sales, r.is_outlier⟩)) ∧
    (getMonthlySalesCsv (some [⟨202001, "tomato", 100, true⟩]) (some "TRUE") =
      (Status.success, [])) :=
  ⟨c9_remove_outliers_filter.1 [⟨202001, "tomato", 100, true⟩] (some "TRUE") (by decide),
   c9_remove_outliers_filter.2.2.1 [⟨202001, "tomato", 100, true⟩] (some "TRUE")
     (by decide) rfl⟩

/-- C10: `get_raw_sales` rebuilds each date label from the stored integer
key as the year followed by the week number zero-padded to two digits, in
both apps; in particular the two posted labels `"2020-1"` and `"2020-01"`
parse to the same internal key 202001 — hence denote the same stored row —
and any row with that key is returned as the canonical `"2020-01"`, not
necessarily as the label originally posted. -/
theorem c10_raw_dates_canonical :
    (∀ rows : List SRec, (getRawSalesCsv (some rows)).map (fun v => v.date) =
        rows.map (fun r => fmtYearWeek r.year_week)) ∧
    (∀ rows : List SRec, (getRawSalesSql rows).map (fun v => v.date) =
        rows.map (fun r => fmtYearWeek r.year_week)) ∧
    parseDateLabel "2020-1" = some 202001 ∧
    parseDateLabel "2020-01" = some 202001 ∧
    fmtYearWeek 202001 = "2020-01" := by
  refine ⟨?_, ?_, by decide, by decide, by decide⟩
  · intro rows
    unfold getRawSalesCsv
    rw [List.map_map]
    rfl
  · intro rows
    unfold getRawSalesSql
    rw [List.map_map]
    rfl

/-! ## Lemmas about the outlier tagger (claim C6) -/

theorem sum_sq_nonneg (m : ℚ) (xs : List ℚ) :
    0 ≤ (xs.map (fun x => (x - m) ^ 2)).sum := by
  apply List.sum_nonneg
  intro y hy
  simp only [List.mem_map] at hy
  obtain ⟨x, _, rfl⟩ := hy
  exact sq_nonneg _

theorem sampleVar_nonneg {xs : List ℚ} (h2 : 2 ≤ xs.length) : 0 ≤ sampleVar xs := by
  unfold sampleVar
  apply div_nonneg (sum_sq_nonneg _ _)
  have h : (2 : ℚ) ≤ (xs.length : ℚ) := by exact_mod_cast h2
  linarith

theorem sqrt_twentyfive_mul (v : ℝ) : Real.sqrt (25 * v) = 5 * Real.sqrt v := by
  rw [show (25 : ℝ) = 5 ^ 2 by norm_num, Real.sqrt_mul (by positivity) v,
    Real.sqrt_sq (by norm_num : (0 : ℝ) ≤ 5)]

/-- The tagger's rational test `x > mean ∧ (x - mean)² > 25 · var` is exactly
the source's floating-point comparison `x > mean + 5 · std` where
`std = sqrt var`, read over the reals. -/
theorem flagFor_iff_sqrt {xs : List ℚ} (x : ℚ) (h2 : 2 ≤ xs.length) :
    (flagFor xs x = true ↔
      ((sampleMean xs : ℚ) : ℝ) + 5 * Real.sqrt ((sampleVar xs : ℚ)) < ((x : ℚ) : ℝ)) := by
  unfold flagFor
  rw [if_pos h2]
  simp only [Bool.and_eq_true, decide_eq_true_eq]
  have hv : (0 : ℝ) ≤ ((sampleVar xs : ℚ) : ℝ) := by
    exact_mod_cast sampleVar_nonneg h2
  constructor
  · rintro ⟨hm, hlt⟩
    have hmR : ((sampleMean xs : ℚ) : ℝ) < ((x : ℚ) : ℝ) := by exact_mod_cast hm
    have hltR : 25 * ((sampleVar xs : ℚ) : ℝ) <
        (((x : ℚ) : ℝ) - ((sampleMean xs : ℚ) : ℝ)) ^ 2 := by
      have := (Rat.cast_lt (K := ℝ)).mpr hlt
      push_cast at this
      linarith
    have hpos : (0 : ℝ) < ((x : ℚ) : ℝ) - ((sampleMean xs : ℚ) : ℝ) := by linarith
    have hs := (Real.sqrt_lt' hpos).mpr hltR
    rw [sqrt_twentyfive_mul] at hs
    linarith
  · intro h
    have hs0 := Real.sqrt_nonneg ((sampleVar xs : ℚ) : ℝ)
    have hmR : ((sampleMean xs : ℚ) : ℝ) < ((x : ℚ) : ℝ) := by linarith
    refine ⟨by exact_mod_cast hmR, ?_⟩
    have hpos : (0 : ℝ) < ((x : ℚ) : ℝ) - ((sampleMean xs : ℚ) : ℝ) := by linarith
    have h5 : Real.sqrt (25 * ((sampleVar xs : ℚ) : ℝ)) <
        ((x : ℚ) : ℝ) - ((sampleMean xs : ℚ) : ℝ) := by
      rw [sqrt_twentyfive_mul]
      linarith
    have hlt := (Real.sqrt_lt' hpos).mp h5
    have : ((25 * sampleVar xs : ℚ) : ℝ) < (((x - sampleMean xs) ^ 2 : ℚ) : ℝ) := by
      push_cast
      linarith
    exact_mod_cast this

theorem sum_sq_zero_all_eq (m : ℚ) :
    ∀ xs : List ℚ, (xs.map (fun x => (x - m) ^ 2)).sum = 0 → ∀ x ∈ xs, x = m := by
  intro xs
  induction xs with
  | nil => simp
  | cons a t ih =>
    intro h x hx
    simp only [List.map_cons, List.sum_cons] at h
    have h1 : 0 ≤ (a - m) ^ 2 := sq_nonneg _
    have h2 : 0 ≤ (t.map (fun x => (x - m) ^ 2)).sum := sum_sq_nonneg m t
    rcases List.mem_cons.mp hx with rfl | hx'
    · have ha : (x - m) ^ 2 = 0 := by linarith
      have := pow_eq_zero_iff (n := 2) (by norm_num) |>.mp ha
      linarith [sub_eq_zero.mp this]
    · exact ih (by linarith) x hx'

theorem sampleVar_zero_all_eq {xs : List ℚ} (h2 : 2 ≤ xs.length)
    (hv : sampleVar xs = 0) : ∀ x ∈ xs, x = sampleMean xs := by
  unfold sampleVar at hv
  have hden : ((xs.length : ℚ) - 1) ≠ 0 := by
    have h : (2 : ℚ) ≤ (xs.length : ℚ) := by exact_mod_cast h2
    intro he
    rw [sub_eq_zero] at he
    linarith
  rw [div_eq_zero_iff] at hv
  rcases hv with h | h
  · exact sum_sq_zero_all_eq _ _ h
  · exact absurd h hden

/-- C6: the outlier tagger partitions by vegetable; every output row's flag
is true iff its partition has at least two rows and its sales strictly
exceed the partition's sample mean plus five times its sample standard
deviation (`Real.sqrt` of the sample variance); a partition with fewer than
two rows, or with zero variance, never flags. -/
theorem c6_outlier_tagging (l : List MRec) (a : Agg) (ha : a ∈ tagOutliers l) :
    (a.is_outlier = true ↔
      2 ≤ (groupSales l a.vegetable).length ∧
        ((sampleMean (groupSales l a.vegetable) : ℚ) : ℝ) +
          5 * Real.sqrt ((sampleVar (groupSales l a.vegetable) : ℚ)) <
            ((a.sales : ℚ) : ℝ)) ∧
    ((groupSales l a.vegetable).length < 2 ∨ sampleVar (groupSales l a.vegetable) = 0 →
      a.is_outlier = false) := by
  unfold tagOutliers at ha
  simp only [List.mem_map] at ha
  obtain ⟨r, hr, rfl⟩ := ha
  dsimp only
  constructor
  · by_cases h2 : 2 ≤ (groupSales l r.vegetable).length
    · constructor
      · intro hf
        exact ⟨h2, (flagFor_iff_sqrt r.sales h2).mp hf⟩
      · rintro ⟨_, hgt⟩
        exact (flagFor_iff_sqrt r.sales h2).mpr hgt
    · unfold flagFor
      rw [if_neg h2]
      simp [h2]
  · rintro (hlt | hv0)
    · unfold flagFor
      rw [if_neg (by omega)]
    · by_cases h2 : 2 ≤ (groupSales l r.vegetable).length
      · unfold flagFor
        rw [if_pos h2]
        have hmem : r.sales ∈ groupSales l r.vegetable := by
          unfold groupSales
          exact List.mem_map_of_mem _ (List.mem_filter.mpr ⟨hr, by simp⟩)
        have heq : r.sales = sampleMean (groupSales l r.vegetable) :=
          sampleVar_zero_all_eq h2 hv0 r.sales hmem
        simp [← heq]
      · unfold flagFor
        rw [if_neg h2]

/-- C6 witness: a gold table with a single tomato row — its partition has
one element, so the row is tagged non-outlier and the characterisations
hold. -/
theorem c6_outlier_tagging_witness :
    ((⟨202001, "tomato", 100,
        flagFor (groupSales [⟨202001, "tomato", 100⟩] "tomato") 100⟩ : Agg) ∈
      tagOutliers [⟨202001, "tomato", 100⟩]) ∧
    ((⟨202001, "tomato", 100,
        flagFor (groupSales [⟨202001, "tomato", 100⟩] "tomato") 100⟩ : Agg).is_outlier
          = false) := by
  have hmem : ((⟨202001, "tomato", 100,
      flagFor (groupSales [⟨202001, "tomato", 100⟩] "tomato") 100⟩ : Agg) ∈
        tagOutliers [⟨202001, "tomato", 100⟩]) := by
    unfold tagOutliers
    exact List.mem_map_of_mem _ (List.mem_singleton_self _)
  refine ⟨hmem, ?_⟩
  apply (c6_outlier_tagging [⟨202001, "tomato", 100⟩] _ hmem).2
  left
  show (groupSales [⟨202001, "tomato", 100⟩] "tomato").length < 2
  decide

/-! ## Lemmas about the gold recomputation (claim C1) -/

theorem insertSorted_perm (a : Nat × String) :
    ∀ l : List (Nat × String), (insertSorted a l).Perm (a :: l) := by
  intro l
  induction l with
  | nil => exact List.Perm.refl _
  | cons b t ih =>
    unfold insertSorted
    by_cases h : keyLe a b
    · rw [if_pos h]
    · rw [if_neg h]
      exact (List.Perm.cons b ih).trans (List.Perm.swap a b t)

theorem sortKeys_perm (l : List (Nat × String)) : (sortKeys l).Perm l := by
  induction l with
  | nil => exact List.Perm.refl _
  | cons a t ih =>
    show (insertSorted a (sortKeys t)).Perm (a :: t)
    exact (insertSorted_perm a (sortKeys t)).trans (List.Perm.cons a ih)

theorem groupby_map_keyM (l : List MRec) :
    (groupby l).map keyM = sortKeys (dedupBy id (l.map keyM)) := by
  unfold groupby
  rw [List.map_map]
  exact List.map_id _

theorem groupby_keys_mem (l : List MRec) (k : Nat × String) :
    k ∈ (groupby l).map keyM ↔ k ∈ l.map keyM := by
  rw [groupby_map_keyM]
  rw [(sortKeys_perm _).mem_iff]
  have h := dedupBy_mem_map (α := Nat × String) id (l.map keyM).length (l.map keyM) le_rfl k
  simpa using h

theorem groupby_keys_nodup (l : List MRec) : ((groupby l).map keyM).Nodup := by
  rw [groupby_map_keyM]
  rw [(sortKeys_perm _).nodup_iff]
  have h := dedupBy_nodup (α := Nat × String) id (l.map keyM).length (l.map keyM) le_rfl
  simpa using h

theorem tagOutliers_map_keyA (l : List MRec) :
    (tagOutliers l).map keyA = l.map keyM := by
  unfold tagOutliers
  rw [List.map_map]
  rfl

theorem computeMonthlySales_keys_nodup {s : List SRec} {m : List MRec}
    (h : computeMonthlySales s = some m) : (m.map keyM).Nodup := by
  unfold computeMonthlySales at h
  split at h
  · simp only [Option.some.injEq] at h
    subst h
    simp
  · cases hA : allocAll s with
    | none =>
      rw [hA] at h
      simp at h
    | some L =>
      rw [hA] at h
      simp only [Option.map_some', Option.some.injEq] at h
      subst h
      exact groupby_keys_nodup L

theorem allocAll_append :
    ∀ (s t : List SRec) (L : List MRec), allocAll (s ++ t) = some L →
      ∃ L1 L2, allocAll s = some L1 ∧ allocAll t = some L2 ∧ L = L1 ++ L2 := by
  intro s
  induction s with
  | nil =>
    intro t L h
    exact ⟨[], L, rfl, h, rfl⟩
  | cons r rs ih =>
    intro t L h
    rw [List.cons_append] at h
    unfold allocAll at h
    cases ha : allocate r.year_week r.vegetable r.sales with
    | none =>
      rw [ha] at h
      cases hb : allocAll (rs ++ t) <;> rw [hb] at h <;> simp at h
    | some c =>
      rw [ha] at h
      cases hb : allocAll (rs ++ t) with
      | none =>
        rw [hb] at h
        simp at h
      | some cs =>
        rw [hb] at h
        simp only [Option.some.injEq] at h
        obtain ⟨L1, L2, h1, h2, rfl⟩ := ih t cs hb
        refine ⟨c ++ L1, L2, ?_, h2, by rw [← h, List.append_assoc]⟩
        show (match allocate r.year_week r.vegetable r.sales, allocAll rs with
          | some c, some cs => some (c ++ cs)
          | _, _ => none) = some (c ++ L1)
        rw [ha, h1]

theorem cms_keys_monotone {s e : List SRec} {m m' : List MRec}
    (hm : computeMonthlySales s = some m)
    (hm' : computeMonthlySales (s ++ e) = some m') :
    ∀ k ∈ m.map keyM, k ∈ m'.map keyM := by
  intro k hk
  unfold computeMonthlySales at hm hm'
  by_cases hs : s.isEmpty
  · rw [if_pos hs] at hm
    simp only [Option.some.injEq] at hm
    subst hm
    simp at hk
  · rw [if_neg hs] at hm
    have hse : ¬ (s ++ e).isEmpty := by
      cases s with
      | nil => simp at hs
      | cons a t => simp
    rw [if_neg hse] at hm'
    cases hA : allocAll (s ++ e) with
    | none =>
      rw [hA] at hm'
      simp at hm'
    | some L =>
      rw [hA] at hm'
      simp only [Option.map_some', Option.some.injEq] at hm'
      subst hm'
      obtain ⟨L1, L2, h1, h2, rfl⟩ := allocAll_append s e L hA
      rw [h1] at hm
      simp only [Option.map_some', Option.some.injEq] at hm
      subst hm
      rw [groupby_keys_mem] at hk ⊢
      rw [List.map_append]
      exact List.mem_append_left _ hk

theorem insertOrIgnoreAll_append_ex :
    ∀ (rs t : List SRec), ∃ e, insertOrIgnoreAll t rs = t ++ e := by
  intro rs
  induction rs with
  | nil =>
    intro t
    exact ⟨[], by simp [insertOrIgnoreAll]⟩
  | cons r rs ih =>
    intro t
    obtain ⟨e, he⟩ := ih (insertOrIgnore t r)
    by_cases h : keyS r ∈ t.map keyS
    · refine ⟨e, ?_⟩
      show insertOrIgnoreAll (insertOrIgnore t r) rs = t ++ e
      rw [show insertOrIgnore t r = t from by unfold insertOrIgnore; rw [if_pos h]] at he ⊢
      exact he
    · refine ⟨[r] ++ e, ?_⟩
      show insertOrIgnoreAll (insertOrIgnore t r) rs = t ++ ([r] ++ e)
      rw [show insertOrIgnore t r = t ++ [r] from by
        unfold insertOrIgnore; rw [if_neg h]] at he ⊢
      rw [he, List.append_assoc]

theorem insertOrReplaceAll_eq :
    ∀ (new g : List Agg), (new.map keyA).Nodup →
      insertOrReplaceAll g new =
        g.filter (fun x => keyA x ∉ new.map keyA) ++ new := by
  intro new
  induction new with
  | nil =>
    intro g _
    show g = g.filter (fun x => keyA x ∉ ([] : List (Nat × String))) ++ []
    simp
  | cons a rest ih =>
    intro g hnodup
    simp only [List.map_cons, List.nodup_cons] at hnodup
    show insertOrReplaceAll (insertOrReplace g a) rest = _
    rw [ih _ hnodup.2]
    unfold insertOrReplace
    rw [List.filter_append, List.filter_filter]
    have h1 : List.filter
        (fun x => decide (keyA x ∉ rest.map keyA) && decide (keyA x ≠ keyA a)) g =
        g.filter (fun x => keyA x ∉ (keyA a :: rest.map keyA)) := by
      apply List.filter_congr
      intro x _
      simp only [List.mem_cons, not_or, ne_eq, ← Bool.decide_and, decide_eq_decide]
      tauto
    have h2 : [a].filter (fun x => keyA x ∉ rest.map keyA) = [a] := by
      simp only [List.filter_cons, List.filter_nil]
      rw [if_pos (by simpa using hnodup.1)]
    rw [h1, h2, List.map_cons, List.append_assoc]
    rfl

theorem insertOrReplaceAll_covers {g new : List Agg}
    (hnodup : (new.map keyA).Nodup)
    (hcov : ∀ x ∈ g, keyA x ∈ new.map keyA) :
    insertOrReplaceAll g new = new := by
  rw [insertOrReplaceAll_eq new g hnodup]
  rw [List.filter_eq_nil_iff.mpr ?_]
  · rfl
  · intro x hx
    simp [hcov x hx]

/-- The SQL backend's gold invariant: in every reachable state, gold equals
the outlier-tagged recomputation from the full current silver table — even
though the SQL app merges with INSERT OR REPLACE instead of rebuilding, the
keys of the recomputation only ever grow (silver rows are never deleted), so
every previously stored gold row is overwritten and nothing stale
survives. -/
theorem sql_gold_invariant :
    ∀ st : SqlState, SqlReach st →
      ∃ m, computeMonthlySales st.silver = some m ∧ st.gold = tagOutliers m := by
  intro st h
  induction h with
  | init => exact ⟨[], rfl, rfl⟩
  | reset st' h' ih => exact ⟨[], rfl, rfl⟩
  | post st' body h' ih =>
    obtain ⟨m, hm, hg⟩ := ih
    cases body with
    | jstr s => exact ⟨m, hm, hg⟩
    | jnum q => exact ⟨m, hm, hg⟩
    | jbool b => exact ⟨m, hm, hg⟩
    | jnull => exact ⟨m, hm, hg⟩
    | jobj fields => exact ⟨m, hm, hg⟩
    | jarr items =>
      by_cases hval : items.all validRecord = true
      · cases htr : transformAll items with
        | none =>
          have hpost : postSalesSql st' (JVal.jarr items) = (Status.serverError, st') := by
            unfold postSalesSql
            dsimp only
            rw [if_pos hval, htr]
          rw [hpost]
          exact ⟨m, hm, hg⟩
        | some rows =>
          by_cases hemp : (insertOrIgnoreAll st'.silver (rows.map (fun r =>
              (⟨r.year_week, standardize_vegetable_name r.vegetable, r.sales⟩ : SRec)))).isEmpty = true
          · have hpost : postSalesSql st' (JVal.jarr items) =
                (Status.success, ⟨insertOrIgnoreAll st'.bronze rows,
                  insertOrIgnoreAll st'.silver (rows.map (fun r =>
                    (⟨r.year_week, standardize_vegetable_name r.vegetable, r.sales⟩ : SRec))),
                  st'.gold⟩) := by
              unfold postSalesSql
              dsimp only
              rw [if_pos hval, htr]
              dsimp only
              rw [if_pos hemp]
            rw [hpost]
            have hnil : insertOrIgnoreAll st'.silver (rows.map (fun r =>
                (⟨r.year_week, standardize_vegetable_name r.vegetable, r.sales⟩ : SRec))) = [] :=
              List.isEmpty_iff.mp hemp
            obtain ⟨e, he⟩ := insertOrIgnoreAll_append_ex (rows.map (fun r =>
              (⟨r.year_week, standardize_vegetable_name r.vegetable, r.sales⟩ : SRec))) st'.silver
            have hsil : st'.silver = [] := by
              rw [he] at hnil
              exact (List.append_eq_nil.mp hnil).1
            have hm0 : m = [] := by
              rw [hsil] at hm
              have hm' : (some ([] : List MRec)) = some m := hm
              exact (Option.some.inj hm').symm
            refine ⟨[], ?_, ?_⟩
            · show computeMonthlySales (insertOrIgnoreAll st'.silver _) = some []
              rw [hnil]
              rfl
            · show st'.gold = tagOutliers []
              rw [hg, hm0]
          · cases hcm : computeMonthlySales (insertOrIgnoreAll st'.silver (rows.map (fun r =>
                (⟨r.year_week, standardize_vegetable_name r.vegetable, r.sales⟩ : SRec)))) with
            | none =>
              have hpost : postSalesSql st' (JVal.jarr items) = (Status.serverError, st') := by
                unfold postSalesSql
                dsimp only
                rw [if_pos hval, htr]
                dsimp only
                rw [if_neg hemp, hcm]
              rw [hpost]
              exact ⟨m, hm, hg⟩
            | some monthly =>
              have hpost : postSalesSql st' (JVal.jarr items) =
                  (Status.success, ⟨insertOrIgnoreAll st'.bronze rows,
                    insertOrIgnoreAll st'.silver (rows.map (fun r =>
                      (⟨r.year_week, standardize_vegetable_name r.vegetable, r.sales⟩ : SRec))),
                    insertOrReplaceAll st'.gold (tagOutliers monthly)⟩) := by
                unfold postSalesSql
                dsimp only
                rw [if_pos hval, htr]
                dsimp only
                rw [if_neg hemp, hcm]
              rw [hpost]
              refine ⟨monthly, hcm, ?_⟩
              show insertOrReplaceAll st'.gold (tagOutliers monthly) = tagOutliers monthly
              rw [hg]
              apply insertOrReplaceAll_covers
              · rw [tagOutliers_map_keyA]
                exact computeMonthlySales_keys_nodup hcm
              · intro x hx
                rw [tagOutliers_map_keyA]
                have hx' : keyA x ∈ m.map keyM := by
                  rw [← tagOutliers_map_keyA]
                  exact List.mem_map_of_mem keyA hx
                obtain ⟨e, he⟩ := insertOrIgnoreAll_append_ex (rows.map (fun r =>
                  (⟨r.year_week, standardize_vegetable_name r.vegetable, r.sales⟩ : SRec))) st'.silver
                rw [he] at hcm
                exact cms_keys_monotone hm hcm (keyA x) hx'
      · have hpost : postSalesSql st' (JVal.jarr items) = (Status.clientError, st') := by
          unfold postSalesSql
          dsimp only
          rw [if_neg hval]
        rw [hpost]
        exact ⟨m, hm, hg⟩

/-- C1: gold is exactly the recomputation from the full current silver
table, with nothing else and nothing stale.  CSV app: after every successful
`post_sales`, the new gold table is literally `tag_outliers` applied to the
grouped monthly allocation of the entire new silver table (wholesale
replacement).  SQL app: in every reachable state — in particular after every
successful `post_sales` — gold equals that same recomputation, even though
it is materialized through INSERT OR REPLACE. -/
theorem c1_gold_recomputed :
    (∀ (st : CsvState) (body : JVal) (st' : CsvState),
      postSalesCsv st body = (Status.success, st') →
        ∃ silverRows monthly, st'.silver = some silverRows ∧
          computeMonthlySales silverRows = some monthly ∧
          st'.gold = some (tagOutliers monthly)) ∧
    (∀ st : SqlState, SqlReach st →
      ∃ monthly, computeMonthlySales st.silver = some monthly ∧
        st.gold = tagOutliers monthly) := by
  constructor
  · intro st body st' h
    cases body with
    | jstr s => simp [postSalesCsv] at h
    | jnum q => simp [postSalesCsv] at h
    | jbool b => simp [postSalesCsv] at h
    | jnull => simp [postSalesCsv] at h
    | jobj fields => simp [postSalesCsv] at h
    | jarr items =>
      by_cases hval : items.all validRecord = true
      · cases htr : transformAll items with
        | none =>
          unfold postSalesCsv at h
          dsimp only at h
          rw [if_pos hval, htr] at h
          simp at h
        | some rows =>
          unfold postSalesCsv at h
          dsimp only at h
          rw [if_pos hval, htr] at h
          dsimp only at h
          cases hcm : computeMonthlySales (upsertCsv st.silver (rows.map (fun r =>
              (⟨r.year_week, standardize_vegetable_name r.vegetable, r.sales⟩ : SRec)))) with
          | none =>
            rw [hcm] at h
            simp at h
          | some monthly =>
            rw [hcm] at h
            simp only [Prod.mk.injEq] at h
            obtain ⟨-, h2⟩ := h
            subst h2
            exact ⟨_, monthly, rfl, hcm, rfl⟩
      · unfold postSalesCsv at h
        dsimp only at h
        rw [if_neg hval] at h
        simp at h
  · exact sql_gold_invariant

/-- C1 witness: posting one record to the fresh CSV backend succeeds, and
the resulting gold table is exactly the tagged monthly recomputation of the
resulting silver table. -/
theorem c1_gold_recomputed_witness :
    ∃ silverRows monthly,
      ((postSalesCsv csvInit (JVal.jarr [JVal.jobj [("date", JVal.jstr "2020-01"),
        ("vegetable", JVal.jstr "tomate"), ("kilo_sold", JVal.jnum 100)]])).2).silver =
          some silverRows ∧
      computeMonthlySales silverRows = some monthly ∧
      ((postSalesCsv csvInit (JVal.jarr [JVal.jobj [("date", JVal.jstr "2020-01"),
        ("vegetable", JVal.jstr "tomate"), ("kilo_sold", JVal.jnum 100)]])).2).gold =
          some (tagOutliers monthly) :=
  c1_gold_recomputed.1 csvInit
    (JVal.jarr [JVal.jobj [("date", JVal.jstr "2020-01"),
      ("vegetable", JVal.jstr "tomate"), ("kilo_sold", JVal.jnum 100)]])
    ((postSalesCsv csvInit (JVal.jarr [JVal.jobj [("date", JVal.jstr "2020-01"),
      ("vegetable", JVal.jstr "tomate"), ("kilo_sold", JVal.jnum 100)]])).2)
    (by rfl)

end VegSpec
